import Mathlib

/-
Verification of the two-tier arbitrage scanning pipeline:
shallow embedding of the expiring cache, the hot-list (active set) manager,
the volume scanner, the pairwise arbitrage engine and the cyclic
(triangular) arbitrage engine.  Money and volume amounts are embedded as
rationals, clock readings as integers (milliseconds).
-/

namespace ArbBot

/-- Configuration surface consumed by the core (src/config/config.ts). -/
structure Config where
  arbitrageThreshold : ℚ
  volumeSpikeThreshold : ℚ
  minAbsoluteVolume : ℚ
  hotListSize : Nat
  hotListTTL : Int
deriving Repr, DecidableEq

/-- Nominal trade amount in USD (config.ts, TRADE_AMOUNT_USD = 100). -/
def TRADE_AMOUNT_USD : ℚ := 100

/-- Entry of the generic expiring cache (utils/cache.ts, CacheEntry). -/
structure CacheEntry (α : Type) where
  data : α
  timestamp : Int
  ttl : Int
deriving Repr, DecidableEq

/-- The cache store: a key-to-entry map, embedded as an association list
(JS Map with unique keys and insertion order). -/
abbrev CacheMap (α : Type) := List (String × CacheEntry α)

/-- Embeds Cache.delete: removes the entry under the given key. -/
def cacheDelete (c : CacheMap α) (key : String) : CacheMap α :=
  c.filter (fun p => p.1 ≠ key)

/-- Embeds Cache.get (utils/cache.ts lines 21-35): absent key yields none;
an entry with now - timestamp > ttl is deleted and yields none; otherwise
the stored data is returned.  The returned pair carries the possibly
mutated store. -/
def cacheGet (c : CacheMap α) (now : Int) (key : String) :
    Option α × CacheMap α :=
  match c.lookup key with
  | none => (none, c)
  | some entry =>
    if now - entry.timestamp > entry.ttl then
      (none, cacheDelete c key)
    else
      (some entry.data, c)

/-- Fee breakdown of a pairwise or cyclic trade (types.ts, FeeBreakdown). -/
structure FeeBreakdown where
  buyTradingFee : ℚ
  sellTradingFee : ℚ
  withdrawalFee : ℚ
  gasFee : ℚ
  totalFees : ℚ
deriving Repr, DecidableEq

/-- Reported opportunity (types.ts, ArbitrageOpportunity). -/
structure ArbitrageOpportunity where
  symbol : String
  type : String
  buyExchange : String
  sellExchange : String
  buyPrice : ℚ
  sellPrice : ℚ
  priceDifference : ℚ
  percentageDifference : ℚ
  estimatedProfit : ℚ
  fees : FeeBreakdown
  netProfit : ℚ
  netProfitPercentage : ℚ
  timestamp : Int
  tradeAmount : ℚ
  path : List String := []
deriving Repr, DecidableEq

/-- Exchange quote used by the pairwise engine; only the fields read by
ArbitrageService (exchange and price) are embedded. -/
structure PriceQuote where
  exchange : String
  price : ℚ
deriving Repr, DecidableEq

/-- Top-of-book ticker as consumed by the triangular engine. -/
structure Ticker where
  ask : ℚ
  bid : ℚ
deriving Repr, DecidableEq

/-- External market collaborators (cex.service and
exchange-status.service state), passed explicitly: per-exchange trading
fee rate, per-exchange per-coin withdrawal fee (in coin units), the
suspended-token table and the per-exchange ticker book. -/
structure MarketEnv where
  tradingFee : String → ℚ
  withdrawalFee : String → String → ℚ
  suspended : String → String → Bool
  fetchTicker : String → String → Option Ticker

/-- Embeds the slash split of trading-pair strings: pairBase is
split('/')[0], the part before the first slash (the whole string when no
slash occurs). -/
def pairBase (s : String) : String :=
  String.mk (s.data.takeWhile (fun c => c ≠ '/'))

/-- Embeds split('/')[1], the part after the first slash (empty when no
slash occurs, standing for the undefined of the source). -/
def pairQuote (s : String) : String :=
  String.mk ((s.data.dropWhile (fun c => c ≠ '/')).drop 1)

/-- Embeds ExchangeStatusService.isSuspended: looks up the base coin
(part before the slash) of the symbol in the suspended table.  The
case-normalisation of the JS code is folded into the table itself. -/
def isSuspended (env : MarketEnv) (exchange symbol : String) : Bool :=
  env.suspended exchange (pairBase symbol)

/-- Embeds ExchangeStatusService.shouldSkipArbitrage (lines 26-42): skip
when withdrawal is suspended on the buy exchange or deposit is suspended
on the sell exchange. -/
def shouldSkipArbitrage (env : MarketEnv) (buyExchange sellExchange symbol : String) : Bool :=
  let baseCoin := pairBase symbol
  isSuspended env buyExchange baseCoin || isSuspended env sellExchange baseCoin

/-- Embeds ArbitrageService.calculateFees (part_000 lines 158-188). -/
def calculateFees (env : MarketEnv) (symbol buyExchange sellExchange : String)
    (price : ℚ) : FeeBreakdown :=
  let buyTradingFeeRate := env.tradingFee buyExchange
  let sellTradingFeeRate := env.tradingFee sellExchange
  let buyTradingFee := TRADE_AMOUNT_USD * buyTradingFeeRate
  let sellTradingFee := TRADE_AMOUNT_USD * sellTradingFeeRate
  let baseSymbol := pairBase symbol
  let withdrawalFeeInCoin := env.withdrawalFee buyExchange baseSymbol
  let withdrawalFee := withdrawalFeeInCoin * price
  let gasFee : ℚ := 0
  { buyTradingFee, sellTradingFee, withdrawalFee, gasFee,
    totalFees := buyTradingFee + sellTradingFee + withdrawalFee + gasFee }

/-- Embeds ArbitrageService.calculateArbitrage (part_000 lines 108-153):
returns none when the transfer is suspended or when the net profit is
not positive. -/
def calculateArbitrage (env : MarketEnv) (symbol buyExchange sellExchange : String)
    (buyPrice sellPrice : ℚ) (now : Int) : Option ArbitrageOpportunity :=
  if shouldSkipArbitrage env buyExchange sellExchange symbol then none
  else
    let priceDifference := sellPrice - buyPrice
    let percentageDifference := priceDifference / buyPrice * 100
    let fees := calculateFees env symbol buyExchange sellExchange buyPrice
    let estimatedProfit := priceDifference / buyPrice * TRADE_AMOUNT_USD
    let netProfit := estimatedProfit - fees.totalFees
    let netProfitPercentage := netProfit / TRADE_AMOUNT_USD * 100
    if netProfit ≤ 0 then none
    else some
      { symbol, type := "simple", buyExchange, sellExchange, buyPrice, sellPrice,
        priceDifference, percentageDifference, estimatedProfit, fees, netProfit,
        netProfitPercentage, timestamp := now, tradeAmount := TRADE_AMOUNT_USD }

/-- All index pairs i < j of a list, mirroring the nested loops of
findArbitrageForSymbol (part_000 lines 67-68). -/
def pricePairs : List PriceQuote → List (PriceQuote × PriceQuote)
  | [] => []
  | p :: rest => rest.map (fun q => (p, q)) ++ pricePairs rest

/-- Loop body of findArbitrageForSymbol for one quote pair: orient as
buy low / sell high, compute the opportunity and keep it when the net
profit percentage clears the configured threshold (part_000 lines
69-99). -/
def pairCandidate (env : MarketEnv) (symbol : String) (now : Int)
    (pq : PriceQuote × PriceQuote) : Option ArbitrageOpportunity :=
  calculateArbitrage env symbol
    (if pq.1.price < pq.2.price then pq.1.exchange else pq.2.exchange)
    (if pq.1.price < pq.2.price then pq.2.exchange else pq.1.exchange)
    (if pq.1.price < pq.2.price then pq.1.price else pq.2.price)
    (if pq.1.price < pq.2.price then pq.2.price else pq.1.price) now

/-- Threshold gate of findArbitrageForSymbol (part_000 line 96). -/
def pairStep (cfg : Config) (env : MarketEnv) (symbol : String) (now : Int)
    (opportunities : List ArbitrageOpportunity) (pq : PriceQuote × PriceQuote) :
    List ArbitrageOpportunity :=
  match pairCandidate env symbol now pq with
  | some opportunity =>
    if cfg.arbitrageThreshold ≤ opportunity.netProfitPercentage then
      opportunities ++ [opportunity]
    else opportunities
  | none => opportunities

/-- Embeds ArbitrageService.findArbitrageForSymbol (part_000 lines 55-103)
with the already-fetched cross-exchange quotes passed in. -/
def findArbitrageForSymbol (cfg : Config) (env : MarketEnv) (symbol : String)
    (prices : List PriceQuote) (now : Int) : List ArbitrageOpportunity :=
  if prices.length < 2 then []
  else (pricePairs prices).foldl (pairStep cfg env symbol now) []

/-- Triangular path record (types.ts, TriangularPath). -/
structure TriangularPath where
  exchanges : List String
  symbols : List String
  prices : List ℚ
  estimatedProfit : ℚ
  fees : FeeBreakdown
  netProfit : ℚ
deriving Repr, DecidableEq

/-- Embeds TriangularArbitrageService.calculateTriangularPath (part_001
lines 90-135) at its single call shape, where the three prices are
ticker1.ask, ticker2.bid and ticker3.bid.  Note the structure of the
source: coinAmount is computed from the full starting amount before the
leg-1 fee is charged (the decremented amount variable is never read
again), so the unreduced conversion feeds leg 2; the try/catch of the
source cannot fire on this pure arithmetic. -/
def calculateTriangularPath (env : MarketEnv) (exchangeId : String)
    (pair1 pair2 pair3 : String) (price1 price2 price3 : ℚ) : TriangularPath :=
  let amount := TRADE_AMOUNT_USD
  let coinAmount := amount / price1
  let fee1 := amount * env.tradingFee exchangeId
  let intermediateAmount := coinAmount * price2
  let fee2 := intermediateAmount * env.tradingFee exchangeId
  let finalAmount := (intermediateAmount - fee2) * price3
  let fee3 := finalAmount * env.tradingFee exchangeId
  let finalValue := finalAmount - fee3
  let profit := finalValue - TRADE_AMOUNT_USD
  { exchanges := [exchangeId, exchangeId, exchangeId],
    symbols := [pair1, pair2, pair3],
    prices := [price1, price2, price3],
    estimatedProfit := profit,
    fees :=
      { buyTradingFee := fee1, sellTradingFee := fee2 + fee3,
        withdrawalFee := 0, gasFee := 0, totalFees := fee1 + fee2 + fee3 },
    netProfit := profit }

/-- Embeds TriangularArbitrageService.findPaths (part_001 lines 45-85):
for each candidate intermediate currency other than the stable quotes,
resolve the three tickers; a missing ticker or a zero ask/bid discards
the cycle. -/
def findPaths (env : MarketEnv) (exchangeId symbol : String) : List TriangularPath :=
  ["BTC", "ETH", "BNB", "USDT", "USDC"].foldl (fun paths intermediate =>
    if intermediate = "USDT" ∨ intermediate = "USDC" then paths
    else
      let pair1 := symbol ++ "/USDT"
      match env.fetchTicker exchangeId pair1 with
      | none => paths
      | some ticker1 =>
        if ticker1.ask = 0 then paths
        else
          let pair2 := symbol ++ "/" ++ intermediate
          match env.fetchTicker exchangeId pair2 with
          | none => paths
          | some ticker2 =>
            if ticker2.bid = 0 then paths
            else
              let pair3 := intermediate ++ "/USDT"
              match env.fetchTicker exchangeId pair3 with
              | none => paths
              | some ticker3 =>
                if ticker3.bid = 0 then paths
                else
                  paths ++ [calculateTriangularPath env exchangeId pair1 pair2 pair3
                    ticker1.ask ticker2.bid ticker3.bid]) []

/-- Embeds TriangularArbitrageService.formatPath (part_001 lines 165-184). -/
def formatPath (pairs : List String) : List String :=
  let path := pairs.foldl (fun path pair =>
    let base := pairBase pair
    let quote := pairQuote pair
    let path := if path.contains base then path else path ++ [base]
    if path.contains quote then path else path ++ [quote]) ["USDT"]
  if path.getLast? = some "USDT" then path else path ++ ["USDT"]

/-- Embeds TriangularArbitrageService.convertPathToOpportunity (part_001
lines 140-160). -/
def convertPathToOpportunity (exchangeId : String) (path : TriangularPath)
    (now : Int) : ArbitrageOpportunity :=
  let netProfitPercentage := path.netProfit / TRADE_AMOUNT_USD * 100
  { symbol := pairBase (path.symbols.headD ""),
    type := "triangular",
    buyExchange := exchangeId,
    sellExchange := exchangeId,
    buyPrice := path.prices.headD 0,
    sellPrice := path.prices.getLastD 0,
    priceDifference := path.netProfit,
    percentageDifference := netProfitPercentage,
    estimatedProfit := path.estimatedProfit,
    fees := path.fees,
    netProfit := path.netProfit,
    netProfitPercentage,
    timestamp := now,
    tradeAmount := TRADE_AMOUNT_USD,
    path := formatPath path.symbols }

/-- Filter body of findTriangularArbitrage for one path (part_001 lines
27-32). -/
def triPathStep (cfg : Config) (exchangeId : String) (now : Int)
    (opportunities : List ArbitrageOpportunity) (path : TriangularPath) :
    List ArbitrageOpportunity :=
  if 0 < path.netProfit ∧
      cfg.arbitrageThreshold ≤ path.netProfit / TRADE_AMOUNT_USD * 100 then
    opportunities ++ [convertPathToOpportunity exchangeId path now]
  else opportunities

/-- Per-symbol body of findTriangularArbitrage. -/
def triSymbolStep (cfg : Config) (env : MarketEnv) (exchangeId : String) (now : Int)
    (opportunities : List ArbitrageOpportunity) (symbol : String) :
    List ArbitrageOpportunity :=
  (findPaths env exchangeId symbol).foldl (triPathStep cfg exchangeId now) opportunities

/-- Embeds TriangularArbitrageService.findTriangularArbitrage (part_001
lines 16-39): for the first ten symbols, keep every path with positive
net profit whose profit percentage clears the configured threshold. -/
def findTriangularArbitrage (cfg : Config) (env : MarketEnv) (exchangeId : String)
    (symbols : List String) (now : Int) : List ArbitrageOpportunity :=
  (symbols.take 10).foldl (triSymbolStep cfg env exchangeId now) []

/-- Follows the claim wording for the cyclic engine (fee-adjusted
carry-forward): each leg converts, charges the venue fee on the converted
amount, and the net remainder feeds the next leg; written only for
comparison with calculateTriangularPath. -/
def claimTriangularNetProfit (feeRate price1 price2 price3 : ℚ) : ℚ :=
  let leg1Converted := TRADE_AMOUNT_USD / price1
  let leg1Out := leg1Converted - leg1Converted * feeRate
  let leg2Converted := leg1Out * price2
  let leg2Out := leg2Converted - leg2Converted * feeRate
  let leg3Converted := leg2Out * price3
  let leg3Out := leg3Converted - leg3Converted * feeRate
  leg3Out - TRADE_AMOUNT_USD

/-- Admission reason tags (hotlist.service.ts, addToHotList signature). -/
inductive Reason where
  | volume_spike
  | high_volume
  | cross_exchange_disparity
  | historical_pattern
deriving Repr, DecidableEq

/-- Volume sample (types.ts, VolumeData). -/
structure VolumeData where
  symbol : String
  currentVolume : ℚ
  averageVolume : ℚ
  volumeSpike : ℚ
  timestamp : Int
deriving Repr, DecidableEq

/-- Hot-list entry (types.ts, HotCoin). -/
structure HotCoin where
  symbol : String
  addedAt : Int
  reason : Reason
  volumeData : VolumeData
deriving Repr, DecidableEq

/-- Historical arbitrage statistics (types.ts, HistoricalArbitrage). -/
structure HistoricalArbitrage where
  symbol : String
  occurrences : Nat
  lastSeen : Int
  averageProfit : ℚ
deriving Repr, DecidableEq

/-- The hot list, embedded as a list of entries in insertion order
(JS Map with the symbol as key; keys unique by construction). -/
abbrev HotList := List HotCoin

/-- Embeds HotListService presence check (hotList.has). -/
def hotHas (st : HotList) (symbol : String) : Bool :=
  st.any (fun c => c.symbol == symbol)

/-- Embeds HotListService.removeFromHotList: deletes the entry keyed by
the symbol. -/
def removeFromHotList (st : HotList) (symbol : String) : HotList :=
  st.filter (fun c => c.symbol ≠ symbol)

/-- Single step of the minimum search of removeOldestCoin (lines
127-132): update the accumulator when the entry is strictly older. -/
def oldestStep (acc : Option String × Int) (c : HotCoin) : Option String × Int :=
  if c.addedAt < acc.2 then (some c.symbol, c.addedAt) else acc

/-- Embeds HotListService.removeOldestCoin (lines 123-137): the scan
starts from the current clock reading, so only entries strictly older
than now can be selected; when none is, nothing is removed. -/
def removeOldestCoin (st : HotList) (now : Int) : HotList :=
  match (st.foldl oldestStep (none, now)).1 with
  | some oldestSymbol => removeFromHotList st oldestSymbol
  | none => st

/-- Embeds HotListService.addToHotList (lines 24-50): no-op when the
symbol is present; at capacity remove the oldest entry first, then
append the new entry stamped with the current clock reading. -/
def addToHotList (cfg : Config) (st : HotList) (now : Int) (symbol : String)
    (reason : Reason) (volumeData : VolumeData) : HotList :=
  if hotHas st symbol then st
  else
    let st := if cfg.hotListSize ≤ st.length then removeOldestCoin st now else st
    st ++ [{ symbol, addedAt := now, reason, volumeData }]

/-- One admission call: clock reading and arguments of addToHotList. -/
structure AdmitOp where
  now : Int
  symbol : String
  reason : Reason
  volumeData : VolumeData
deriving Repr, DecidableEq

/-- Applies one admission call to the hot list. -/
def admitStep (cfg : Config) (st : HotList) (op : AdmitOp) : HotList :=
  addToHotList cfg st op.now op.symbol op.reason op.volumeData

/-- Runs a sequence of admissions from the empty hot list. -/
def runAdmissions (cfg : Config) (ops : List AdmitOp) : HotList :=
  ops.foldl (admitStep cfg) []

/-- Embeds HotListService.cleanupExpiredCoins (lines 104-118): collect
the symbols whose age strictly exceeds the TTL, then remove each. -/
def cleanupExpiredCoins (cfg : Config) (st : HotList) (now : Int) : HotList :=
  let expired := (st.filter (fun c => now - c.addedAt > cfg.hotListTTL)).map (fun c => c.symbol)
  expired.foldl removeFromHotList st

/-- Embeds HotListService.getHistoricallyProfitable (lines 164-175):
symbols with at least minOccurrences recorded opportunities last seen
strictly within the trailing seven days. -/
def getHistoricallyProfitable (hist : List HistoricalArbitrage) (now : Int)
    (minOccurrences : Nat) : List String :=
  let weekAgo := now - 7 * 24 * 60 * 60 * 1000
  (hist.filter (fun d => decide (minOccurrences ≤ d.occurrences ∧ weekAgo < d.lastSeen))).map
    (fun d => d.symbol)

/-- Zero-volume snapshot attached by addHistoricalCoins (lines 189-195). -/
def historicalVolumeData (symbol : String) (now : Int) : VolumeData :=
  { symbol, currentVolume := 0, averageVolume := 0, volumeSpike := 1, timestamp := now }

/-- Loop body of HotListService.addHistoricalCoins (lines 183-202). -/
def histStep (cfg : Config) (now : Int) (s : HotList) (symbol : String) : HotList :=
  if hotHas s symbol = false ∧ s.length < cfg.hotListSize then
    addToHotList cfg s now symbol Reason.historical_pattern (historicalVolumeData symbol now)
  else s

/-- Embeds HotListService.addHistoricalCoins (lines 180-203): admit each
historically profitable symbol with reason historical_pattern when it is
not already hot and the list is strictly below capacity. -/
def addHistoricalCoins (cfg : Config) (st : HotList)
    (hist : List HistoricalArbitrage) (now : Int) : HotList :=
  (getHistoricallyProfitable hist now 3).foldl (histStep cfg now) st

/-- Rolling history window size (part_002 line 14, HISTORY_WINDOW). -/
def HISTORY_WINDOW : Nat := 12

/-- Embeds the history update and sample production of
VolumeScannerService.getVolumeDataForSymbol (part_002 lines 87-116),
with the already-aggregated cross-exchange volume passed in: zero total
volume produces nothing; otherwise the sample is appended to the window
(dropping the oldest element when the window overflows), and the spike
ratio is the current volume over the window average. -/
def getVolumeDataForSymbol (symbol : String) (history : List ℚ)
    (currentVolume : ℚ) (now : Int) : Option (VolumeData × List ℚ) :=
  if currentVolume = 0 then none
  else
    let history := history ++ [currentVolume]
    let history := if HISTORY_WINDOW < history.length then history.tail else history
    let averageVolume :=
      if 0 < history.length then history.sum / (history.length : ℚ) else currentVolume
    let volumeSpike := if 0 < averageVolume then currentVolume / averageVolume else 1
    some ({ symbol, currentVolume, averageVolume, volumeSpike, timestamp := now }, history)

/-- Loop body of the per-symbol volume scan sequence. -/
def scanStep (symbol : String) (now : Int) (acc : List VolumeData × List ℚ)
    (v : ℚ) : List VolumeData × List ℚ :=
  match getVolumeDataForSymbol symbol acc.2 v now with
  | none => acc
  | some (d, h) => (acc.1 ++ [d], h)

/-- Feeds a sequence of aggregated volume observations for one symbol
through the scanner, returning the produced samples and the final
history window. -/
def scanSymbolVolumes (symbol : String) (now : Int) (volumes : List ℚ) :
    List VolumeData × List ℚ :=
  volumes.foldl (scanStep symbol now) ([], [])

/-- Embeds VolumeScannerService.identifyVolumeSpikes (part_002 lines
121-135): keep the samples whose spike ratio reaches the configured
threshold and whose current volume reaches the configured minimum. -/
def identifyVolumeSpikes (cfg : Config) (volumeData : List VolumeData) : List VolumeData :=
  volumeData.filter (fun d =>
    decide (cfg.volumeSpikeThreshold ≤ d.volumeSpike ∧
      cfg.minAbsoluteVolume ≤ d.currentVolume))

/-- Default configuration values of config.ts (lines 8-14). -/
def defaultConfig : Config :=
  { arbitrageThreshold := 3, volumeSpikeThreshold := 3, minAbsoluteVolume := 500000,
    hotListSize := 50, hotListTTL := 1800000 }

/-- Market environment with a flat 0.1 percent trading fee, no
withdrawal fees, no suspensions and no tickers. -/
def flatFeeEnv : MarketEnv :=
  { tradingFee := fun _ => 1 / 1000, withdrawalFee := fun _ _ => 0,
    suspended := fun _ _ => false, fetchTicker := fun _ _ => none }

/-- Market environment for evaluating the cyclic engine: a flat ten
percent trading fee and one resolvable cycle for symbol X through BTC
(ask 2 on X/USDT, bid 3 on X/BTC, bid 5 on BTC/USDT). -/
def cyclicEnv : MarketEnv :=
  { tradingFee := fun _ => 1 / 10, withdrawalFee := fun _ _ => 0,
    suspended := fun _ _ => false,
    fetchTicker := fun _ pair =>
      if pair = "X/USDT" then some { ask := 2, bid := 2 }
      else if pair = "X/BTC" then some { ask := 3, bid := 3 }
      else if pair = "BTC/USDT" then some { ask := 5, bid := 5 }
      else none }

/-- Environment in which coin X is suspended on exchange E1. -/
def suspendedEnv : MarketEnv :=
  { flatFeeEnv with suspended := fun exchange coin => exchange == "E1" && coin == "X" }

/-- Volume sample of testable property 1: rolling average 100000,
current volume 350000, hence spike ratio 3.5. -/
def spikeSample : VolumeData :=
  { symbol := "X", currentVolume := 350000, averageVolume := 100000,
    volumeSpike := 350000 / 100000, timestamp := 0 }

/-- Configuration with spike threshold 3 and minimum volume 200000. -/
def spikeConfig : Config := { defaultConfig with minAbsoluteVolume := 200000 }

/-- Configuration with a two-entry hot-list capacity. -/
def smallConfig : Config := { defaultConfig with hotListSize := 2 }

/-- Three admissions of distinct symbols sharing one clock reading. -/
def sameTickOps : List AdmitOp :=
  [ { now := 5, symbol := "A", reason := .volume_spike, volumeData := historicalVolumeData "A" 5 },
    { now := 5, symbol := "B", reason := .volume_spike, volumeData := historicalVolumeData "B" 5 },
    { now := 5, symbol := "C", reason := .volume_spike, volumeData := historicalVolumeData "C" 5 } ]

/-- Three admissions of distinct symbols at strictly rising clock
readings. -/
def risingTickOps : List AdmitOp :=
  [ { now := 1, symbol := "A", reason := .volume_spike, volumeData := historicalVolumeData "A" 1 },
    { now := 2, symbol := "B", reason := .volume_spike, volumeData := historicalVolumeData "B" 2 },
    { now := 3, symbol := "C", reason := .volume_spike, volumeData := historicalVolumeData "C" 3 } ]

/-- A full two-entry hot list with distinct admission times. -/
def fullHotList : HotList :=
  [ { symbol := "A", addedAt := 1, reason := .volume_spike,
      volumeData := historicalVolumeData "A" 1 },
    { symbol := "B", addedAt := 2, reason := .volume_spike,
      volumeData := historicalVolumeData "B" 2 } ]

/-- A one-entry cache whose entry was stored at time 0 with TTL 10. -/
def sampleCache : CacheMap ℚ := [("k", { data := 7, timestamp := 0, ttl := 10 })]

/-- Configuration whose hot-list TTL is 1800 time units. -/
def sweepConfig : Config := { defaultConfig with hotListTTL := 1800 }

/-- Hot list holding one entry admitted at time 100. -/
def sweepHotList : HotList :=
  [ { symbol := "A", addedAt := 100, reason := .volume_spike,
      volumeData := historicalVolumeData "A" 100 } ]

/-- Clock reading used by the historical-reinstatement evaluations:
ten days in milliseconds. -/
def histNow : Int := 864000000

/-- Historical statistics: H1 was seen three times, last two days before
histNow; H2 was seen three times, last eight days before histNow. -/
def sampleHist : List HistoricalArbitrage :=
  [ { symbol := "H1", occurrences := 3, lastSeen := 691200000, averageProfit := 5 },
    { symbol := "H2", occurrences := 3, lastSeen := 172800000, averageProfit := 5 } ]

/-- Hot list holding one unrelated entry. -/
def preHistHotList : HotList :=
  [ { symbol := "Z", addedAt := 1, reason := .volume_spike,
      volumeData := historicalVolumeData "Z" 1 } ]

/-- Configuration whose spike threshold exceeds the window bound. -/
def steepConfig : Config := { defaultConfig with volumeSpikeThreshold := 13 }

/-- The rolling-window update of getVolumeDataForSymbol in isolation:
append the sample, drop the oldest element on overflow. -/
def windowUpdate (history : List ℚ) (v : ℚ) : List ℚ :=
  if HISTORY_WINDOW < (history ++ [v]).length then (history ++ [v]).tail else history ++ [v]

/-- The sample record getVolumeDataForSymbol builds from the updated
window. -/
def mkVolumeSample (symbol : String) (v : ℚ) (h2 : List ℚ) (now : Int) : VolumeData :=
  { symbol, currentVolume := v,
    averageVolume := if 0 < h2.length then h2.sum / (h2.length : ℚ) else v,
    volumeSpike :=
      if 0 < (if 0 < h2.length then h2.sum / (h2.length : ℚ) else v) then
        v / (if 0 < h2.length then h2.sum / (h2.length : ℚ) else v)
      else 1,
    timestamp := now }

/-- Oldest entry of fullHotList. -/
def oldestEntry : HotCoin :=
  { symbol := "A", addedAt := 1, reason := .volume_spike,
    volumeData := historicalVolumeData "A" 1 }

/-- Entry of sweepHotList, admitted at time 100. -/
def sweepEntry : HotCoin :=
  { symbol := "A", addedAt := 100, reason := .volume_spike,
    volumeData := historicalVolumeData "A" 100 }

/-- Quotes of testable property 4: the same pair priced 100 on E1 and
105 on E2. -/
def sampleQuotes : List PriceQuote := [{ exchange := "E1", price := 100 }, { exchange := "E2", price := 105 }]

/-- The opportunity computed from sampleQuotes under flatFeeEnv. -/
def pairOpp : ArbitrageOpportunity :=
  { symbol := "X", type := "simple", buyExchange := "E1", sellExchange := "E2",
    buyPrice := 100, sellPrice := 105, priceDifference := 5, percentageDifference := 5,
    estimatedProfit := 5,
    fees := { buyTradingFee := 1/10, sellTradingFee := 1/10, withdrawalFee := 0,
              gasFee := 0, totalFees := 1/5 },
    netProfit := 24/5, netProfitPercentage := 24/5, timestamp := 0, tradeAmount := 100 }

/-- The triangular opportunity produced by cyclicEnv for symbol X. -/
def triOpp : ArbitrageOpportunity :=
  convertPathToOpportunity "binance"
    (calculateTriangularPath cyclicEnv "binance" "X/USDT" "X/BTC" "BTC/USDT" 2 3 5) 0

/-- The hot-list entry that historical reinstatement creates for H1. -/
def histTarget : HotCoin :=
  { symbol := "H1", addedAt := histNow, reason := .historical_pattern,
    volumeData := historicalVolumeData "H1" histNow }

/-- When no entry is strictly older than the accumulator time, the
minimum search of removeOldestCoin keeps its accumulator. -/
theorem foldl_oldestStep_keep (st : HotList) :
    ∀ (a : Option String) (t : Int), (∀ c ∈ st, ¬(c.addedAt < t)) →
      st.foldl oldestStep (a, t) = (a, t) := by
  induction st with
  | nil => intro a t _; rfl
  | cons c cs ih =>
    intro a t h
    rw [List.foldl_cons, show oldestStep (a, t) c = (a, t) from by
      simp [oldestStep, h c (List.mem_cons_self c cs)]]
    exact ih a t (fun x hx => h x (List.mem_cons_of_mem c hx))

/-- When the list holds a unique strictly oldest entry older than the
accumulator time, the minimum search of removeOldestCoin returns it. -/
theorem foldl_oldestStep_min (st : HotList) :
    ∀ (a : Option String) (t : Int) (m : HotCoin), m ∈ st → m.addedAt < t →
      (∀ c ∈ st, c ≠ m → m.addedAt < c.addedAt) →
      st.foldl oldestStep (a, t) = (some m.symbol, m.addedAt) := by
  induction st with
  | nil => intro a t m hm _ _; exact absurd hm (List.not_mem_nil m)
  | cons c cs ih =>
    intro a t m hm hmt hmin
    rw [List.foldl_cons]
    by_cases hcm : c = m
    · subst hcm
      rw [show oldestStep (a, t) c = (some c.symbol, c.addedAt) from by simp [oldestStep, hmt]]
      exact foldl_oldestStep_keep cs (some c.symbol) c.addedAt (fun x hx hlt => by
        by_cases hxc : x = c
        · subst hxc; exact lt_irrefl x.addedAt hlt
        · exact (hmin x (List.mem_cons_of_mem c hx) hxc).asymm hlt)
    · have hm2 : m ∈ cs := by
        rcases List.mem_cons.mp hm with h | h
        · exact absurd h.symm hcm
        · exact h
      have hmincs : ∀ x ∈ cs, x ≠ m → m.addedAt < x.addedAt :=
        fun x hx => hmin x (List.mem_cons_of_mem c hx)
      have hmc : m.addedAt < c.addedAt := hmin c (List.mem_cons_self c cs) hcm
      by_cases hct : c.addedAt < t
      · rw [show oldestStep (a, t) c = (some c.symbol, c.addedAt) from by simp [oldestStep, hct]]
        exact ih (some c.symbol) c.addedAt m hm2 hmc hmincs
      · rw [show oldestStep (a, t) c = (a, t) from by simp [oldestStep, hct]]
        exact ih a t m hm2 hmt hmincs

/-- The minimum search either keeps its seed or returns the symbol of
some list entry. -/
theorem foldl_oldestStep_pick (st : HotList) :
    ∀ (a : Option String) (t : Int),
      (st.foldl oldestStep (a, t)).1 = a ∨
        ∃ c ∈ st, (st.foldl oldestStep (a, t)).1 = some c.symbol := by
  induction st with
  | nil => intro a t; left; rfl
  | cons c cs ih =>
    intro a t
    rw [List.foldl_cons]
    by_cases hct : c.addedAt < t
    · rw [show oldestStep (a, t) c = (some c.symbol, c.addedAt) from by simp [oldestStep, hct]]
      rcases ih (some c.symbol) c.addedAt with h | ⟨x, hx, hh⟩
      · exact Or.inr ⟨c, List.mem_cons_self c cs, h⟩
      · exact Or.inr ⟨x, List.mem_cons_of_mem c hx, hh⟩
    · rw [show oldestStep (a, t) c = (a, t) from by simp [oldestStep, hct]]
      rcases ih a t with h | ⟨x, hx, hh⟩
      · exact Or.inl h
      · exact Or.inr ⟨x, List.mem_cons_of_mem c hx, hh⟩

/-- When some entry is strictly older than the seed time, the minimum
search returns the symbol of some list entry. -/
theorem foldl_oldestStep_found (st : HotList) :
    ∀ (a : Option String) (t : Int), (∃ c ∈ st, c.addedAt < t) →
      ∃ c ∈ st, (st.foldl oldestStep (a, t)).1 = some c.symbol := by
  induction st with
  | nil =>
    rintro a t ⟨c, hc, -⟩
    exact absurd hc (List.not_mem_nil c)
  | cons c cs ih =>
    rintro a t ⟨c0, hc0, hc0t⟩
    rw [List.foldl_cons]
    by_cases hct : c.addedAt < t
    · rw [show oldestStep (a, t) c = (some c.symbol, c.addedAt) from by simp [oldestStep, hct]]
      rcases foldl_oldestStep_pick cs (some c.symbol) c.addedAt with h | ⟨x, hx, hh⟩
      · exact ⟨c, List.mem_cons_self c cs, h⟩
      · exact ⟨x, List.mem_cons_of_mem c hx, hh⟩
    · rw [show oldestStep (a, t) c = (a, t) from by simp [oldestStep, hct]]
      have hc0cs : c0 ∈ cs := by
        rcases List.mem_cons.mp hc0 with h | h
        · subst h; exact absurd hc0t hct
        · exact h
      rcases ih a t ⟨c0, hc0cs, hc0t⟩ with ⟨x, hx, hh⟩
      exact ⟨x, List.mem_cons_of_mem c hx, hh⟩

/-- Filtering out a present element strictly shrinks a hot list. -/
theorem length_filter_lt_of_mem (p : HotCoin → Bool) (st : HotList) :
    ∀ c ∈ st, p c = false → (st.filter p).length < st.length := by
  induction st with
  | nil => intro c hc _; exact absurd hc (List.not_mem_nil c)
  | cons x xs ih =>
    intro c hc hp
    rcases List.mem_cons.mp hc with h | hcs
    · subst h
      rw [List.filter_cons, hp]
      simpa using Nat.lt_succ_of_le (List.length_filter_le p xs)
    · rw [List.filter_cons]
      cases hpx : p x
      · simpa using Nat.lt_succ_of_lt (ih c hcs hp)
      · simpa using Nat.succ_lt_succ (ih c hcs hp)

/-- When some entry predates the clock reading, removeOldestCoin strictly
shrinks the hot list. -/
theorem removeOldestCoin_length (st : HotList) (now : Int)
    (h : ∃ c ∈ st, c.addedAt < now) :
    (removeOldestCoin st now).length < st.length := by
  rcases foldl_oldestStep_found st none now h with ⟨c, hc, hfst⟩
  unfold removeOldestCoin
  rw [hfst]
  exact length_filter_lt_of_mem _ st c hc (by simp)

/-- Entries surviving removeOldestCoin come from the original list. -/
theorem removeOldestCoin_sub (st : HotList) (now : Int) :
    ∀ c ∈ removeOldestCoin st now, c ∈ st := by
  intro c hc
  unfold removeOldestCoin at hc
  rcases h : (st.foldl oldestStep (none, now)).1 with _ | s
  · rw [h] at hc; exact hc
  · rw [h] at hc; exact List.mem_of_mem_filter hc

/-- When the capacity is at least one, the list within capacity and
every stored entry strictly older than the admission clock, an admission
keeps the hot list within capacity. -/
theorem addToHotList_length (cfg : Config) (st : HotList) (now : Int)
    (symbol : String) (reason : Reason) (vd : VolumeData)
    (hmax : 1 ≤ cfg.hotListSize) (hlen : st.length ≤ cfg.hotListSize)
    (hold : ∀ c ∈ st, c.addedAt < now) :
    (addToHotList cfg st now symbol reason vd).length ≤ cfg.hotListSize := by
  unfold addToHotList
  cases hhas : hotHas st symbol
  · simp only [Bool.false_eq_true, if_false]
    by_cases hcap : cfg.hotListSize ≤ st.length
    · have hne : st ≠ [] := by
        intro he
        rw [he] at hcap
        simp at hcap
        omega
      obtain ⟨c, hc⟩ := List.exists_mem_of_ne_nil st hne
      have hshrink := removeOldestCoin_length st now ⟨c, hc, hold c hc⟩
      rw [if_pos hcap, List.length_append]
      simp only [List.length_cons, List.length_nil]
      omega
    · rw [if_neg hcap, List.length_append]
      simp only [List.length_cons, List.length_nil]
      omega
  · simpa using hlen

/-- Entries after an admission come from the original list or are the
newly inserted entry. -/
theorem addToHotList_mem (cfg : Config) (st : HotList) (now : Int)
    (symbol : String) (reason : Reason) (vd : VolumeData) :
    ∀ c ∈ addToHotList cfg st now symbol reason vd,
      c ∈ st ∨ c = { symbol := symbol, addedAt := now, reason := reason, volumeData := vd } := by
  intro c hc
  unfold addToHotList at hc
  cases hhas : hotHas st symbol <;> rw [hhas] at hc
  · simp only [Bool.false_eq_true, if_false] at hc
    by_cases hcap : cfg.hotListSize ≤ st.length
    · rw [if_pos hcap] at hc
      rcases List.mem_append.mp hc with h | h
      · exact Or.inl (removeOldestCoin_sub st now c h)
      · exact Or.inr (List.mem_singleton.mp h)
    · rw [if_neg hcap] at hc
      rcases List.mem_append.mp hc with h | h
      · exact Or.inl h
      · exact Or.inr (List.mem_singleton.mp h)
  · simp at hc
    exact Or.inl hc

/-- Capacity bound along a strictly clock-increasing admission trace. -/
theorem admitFold_length (cfg : Config) (ops : List AdmitOp) :
    ∀ (st : HotList), 1 ≤ cfg.hotListSize →
      ((ops.map AdmitOp.now).Pairwise (· < ·)) →
      st.length ≤ cfg.hotListSize →
      (∀ c ∈ st, ∀ o ∈ ops, c.addedAt < o.now) →
      ∀ n, ((ops.take n).foldl (admitStep cfg) st).length ≤ cfg.hotListSize := by
  induction ops with
  | nil => intro st _ _ h3 _ n; simpa using h3
  | cons o os ih =>
    intro st h1 h2 h3 h4 n
    rw [List.map_cons, List.pairwise_cons] at h2
    cases n with
    | zero => simpa using h3
    | succ n =>
      rw [List.take_succ_cons, List.foldl_cons]
      have hstep := addToHotList_length cfg st o.now o.symbol o.reason o.volumeData h1 h3
        (fun c hc => h4 c hc o (List.mem_cons_self o os))
      apply ih (admitStep cfg st o) h1 h2.2 hstep
      intro c hc o2 ho2
      rcases addToHotList_mem cfg st o.now o.symbol o.reason o.volumeData c hc with hin | rfl
      · exact h4 c hin o2 (List.mem_cons_of_mem o ho2)
      · exact h2.1 o2.now (List.mem_map_of_mem AdmitOp.now ho2)

/-- At capacity, with a unique strictly oldest entry predating the
clock, an admission of an absent symbol removes exactly that entry and
appends the new one. -/
theorem addToHotList_evict (cfg : Config) (st : HotList) (now : Int)
    (symbol : String) (reason : Reason) (vd : VolumeData) (m : HotCoin)
    (hcap : st.length = cfg.hotListSize) (hhas : hotHas st symbol = false)
    (hm : m ∈ st) (hmt : m.addedAt < now)
    (hmin : ∀ c ∈ st, c ≠ m → m.addedAt < c.addedAt) :
    addToHotList cfg st now symbol reason vd =
      removeFromHotList st m.symbol ++
        [{ symbol := symbol, addedAt := now, reason := reason, volumeData := vd }] := by
  unfold addToHotList
  rw [hhas]
  simp only [Bool.false_eq_true, if_false]
  rw [if_pos (le_of_eq hcap.symm)]
  unfold removeOldestCoin
  rw [foldl_oldestStep_min st none now m hm hmt hmin]

/-- C2, counterexample: three admissions of distinct symbols sharing one
clock reading into a two-entry capacity leave three entries — at the
shared tick, removeOldestCoin finds no entry strictly older than now, so
nothing is evicted and the size exceeds the configured maximum. -/
theorem C2_capacity_counterexample :
    ¬((runAdmissions smallConfig sameTickOps).length ≤ smallConfig.hotListSize) := by
  simp [runAdmissions, sameTickOps, admitStep, addToHotList, smallConfig, defaultConfig,
    hotHas, removeOldestCoin, oldestStep, historicalVolumeData]

/-- C2, amended: provided every admission's clock reading strictly
exceeds all earlier ones (and the configured maximum is at least one, as
the configuration validation enforces), the hot list stays within the
configured maximum after every admission; and at capacity, when the
strictly oldest stored entry is unique and predates the clock, admitting
an absent symbol evicts exactly that oldest entry before the insert. -/
theorem C2_capacity_and_eviction :
    (∀ (cfg : Config) (ops : List AdmitOp), 1 ≤ cfg.hotListSize →
      ((ops.map AdmitOp.now).Pairwise (· < ·)) →
      ∀ n, (runAdmissions cfg (ops.take n)).length ≤ cfg.hotListSize) ∧
    (∀ (cfg : Config) (st : HotList) (now : Int) (symbol : String)
        (reason : Reason) (vd : VolumeData) (m : HotCoin),
      st.length = cfg.hotListSize → hotHas st symbol = false →
      m ∈ st → m.addedAt < now →
      (∀ c ∈ st, c ≠ m → m.addedAt < c.addedAt) →
      addToHotList cfg st now symbol reason vd =
        removeFromHotList st m.symbol ++
          [{ symbol := symbol, addedAt := now, reason := reason, volumeData := vd }]) := by
  constructor
  · intro cfg ops h1 h2 n
    have hp : ((ops.take n).map AdmitOp.now).Pairwise (· < ·) := by
      rw [List.map_take]
      exact List.Pairwise.sublist (List.take_sublist n _) h2
    have h := admitFold_length cfg (ops.take n) [] h1 hp (by simp) (by simp) n
    simpa [runAdmissions, List.take_take] using h
  · intro cfg st now symbol reason vd m hcap hhas hm hmt hmin
    exact addToHotList_evict cfg st now symbol reason vd m hcap hhas hm hmt hmin

/-- C2, witness: three strictly later-and-later admissions into capacity
two stay within capacity; and admitting C into the full two-entry list
at time 10 evicts exactly the oldest entry A. -/
theorem C2_capacity_and_eviction_witness :
    (runAdmissions smallConfig (risingTickOps.take 3)).length ≤ smallConfig.hotListSize ∧
    addToHotList smallConfig fullHotList 10 "C" Reason.volume_spike (historicalVolumeData "C" 10) =
      removeFromHotList fullHotList "A" ++
        [{ symbol := "C", addedAt := 10, reason := Reason.volume_spike,
           volumeData := historicalVolumeData "C" 10 }] := by
  constructor
  · exact C2_capacity_and_eviction.1 smallConfig risingTickOps
      (by norm_num [smallConfig, defaultConfig])
      (by simp [risingTickOps]) 3
  · exact C2_capacity_and_eviction.2 smallConfig fullHotList 10 "C" Reason.volume_spike
      (historicalVolumeData "C" 10) oldestEntry rfl (by decide)
      (by simp [fullHotList, oldestEntry]) (by decide)
      (by
        intro c hc hne
        simp only [fullHotList, List.mem_cons, List.not_mem_nil, or_false] at hc
        rcases hc with rfl | rfl
        · exact absurd (by decide) hne
        · decide)

/-- C6: cacheGet returns the stored value exactly when an entry exists
under the key whose age is at most its ttl (age equal to ttl included);
an entry whose age strictly exceeds its ttl is deleted and read as
absent; a missing key reads as absent and leaves the store unchanged. -/
theorem cacheGet_lookup_some {α : Type} (c : CacheMap α) (now : Int) (key : String)
    (e : CacheEntry α) (h : c.lookup key = some e) :
    cacheGet c now key =
      if now - e.timestamp > e.ttl then (none, cacheDelete c key) else (some e.data, c) := by
  unfold cacheGet
  rw [h]

theorem cacheGet_lookup_none {α : Type} (c : CacheMap α) (now : Int) (key : String)
    (h : c.lookup key = none) : cacheGet c now key = (none, c) := by
  unfold cacheGet
  rw [h]

theorem C6_cache_get_ttl :
    (∀ (α : Type) (c : CacheMap α) (now : Int) (key : String) (v : α),
      (cacheGet c now key).1 = some v ↔
        ∃ e, c.lookup key = some e ∧ now - e.timestamp ≤ e.ttl ∧ e.data = v) ∧
    (∀ (α : Type) (c : CacheMap α) (now : Int) (key : String) (e : CacheEntry α),
      c.lookup key = some e → e.ttl < now - e.timestamp →
      cacheGet c now key = (none, cacheDelete c key)) ∧
    (∀ (α : Type) (c : CacheMap α) (now : Int) (key : String),
      c.lookup key = none → cacheGet c now key = (none, c)) := by
  refine ⟨?_, ?_, ?_⟩
  · intro α c now key v
    rcases h : c.lookup key with _ | e
    · rw [cacheGet_lookup_none c now key h]
      simp
    · rw [cacheGet_lookup_some c now key e h]
      by_cases hexp : now - e.timestamp > e.ttl
      · rw [if_pos hexp]
        simp only [reduceCtorEq, false_iff, not_exists, not_and]
        rintro e' he' hle
        obtain rfl : e = e' := by injection he'
        exact absurd hle (not_le.mpr hexp)
      · rw [if_neg hexp]
        simp only [Option.some.injEq]
        constructor
        · rintro rfl
          exact ⟨e, rfl, not_lt.mp hexp, rfl⟩
        · rintro ⟨e', rfl, -, rfl⟩
          rfl
  · intro α c now key e h hexp
    rw [cacheGet_lookup_some c now key e h, if_pos hexp]
  · intro α c now key h
    exact cacheGet_lookup_none c now key h

/-- C6, witness: the sample entry stored at time 0 with ttl 10 is
deleted and read as absent at time 11, and a missing key reads as
absent. -/
theorem C6_cache_get_ttl_witness :
    cacheGet sampleCache 11 "k" = (none, cacheDelete sampleCache "k") ∧
    cacheGet ([] : CacheMap ℚ) 0 "z" = (none, []) := by
  constructor
  · exact C6_cache_get_ttl.2.1 ℚ sampleCache 11 "k" { data := 7, timestamp := 0, ttl := 10 }
      (by simp [sampleCache, List.lookup]) (by norm_num)
  · exact C6_cache_get_ttl.2.2 ℚ [] 0 "z" rfl

/-- Membership after removing every listed symbol from a hot list. -/
theorem mem_foldl_removeFromHotList (syms : List String) :
    ∀ (st : HotList) (c : HotCoin),
      c ∈ syms.foldl removeFromHotList st ↔ c ∈ st ∧ c.symbol ∉ syms := by
  induction syms with
  | nil => intro st c; simp
  | cons a as ih =>
    intro st c
    rw [List.foldl_cons, ih (removeFromHotList st a) c]
    simp only [removeFromHotList, List.mem_filter, List.mem_cons, decide_eq_true_eq]
    constructor
    · rintro ⟨⟨hin, hna⟩, hnas⟩
      exact ⟨hin, fun h => h.elim hna hnas⟩
    · rintro ⟨hin, hn⟩
      exact ⟨⟨hin, fun h => hn (Or.inl h)⟩, fun h => hn (Or.inr h)⟩

/-- C7: after a sweep no surviving entry's age strictly exceeds the
configured TTL; and with TTL 1800 and unique symbols, an entry admitted
at time T survives a sweep at T + 1799 and is gone after a sweep at
T + 1801. -/
theorem C7_ttl_sweep :
    (∀ (cfg : Config) (st : HotList) (now : Int) (c : HotCoin),
      c ∈ cleanupExpiredCoins cfg st now → now - c.addedAt ≤ cfg.hotListTTL) ∧
    (∀ (cfg : Config) (st : HotList) (T : Int) (c : HotCoin),
      cfg.hotListTTL = 1800 → (st.map HotCoin.symbol).Nodup → c ∈ st → c.addedAt = T →
      c ∈ cleanupExpiredCoins cfg st (T + 1799) ∧ c ∉ cleanupExpiredCoins cfg st (T + 1801)) := by
  have h1 : ∀ (cfg : Config) (st : HotList) (now : Int) (c : HotCoin),
      c ∈ cleanupExpiredCoins cfg st now → now - c.addedAt ≤ cfg.hotListTTL := by
    intro cfg st now c hc
    unfold cleanupExpiredCoins at hc
    rw [mem_foldl_removeFromHotList] at hc
    by_contra hgt
    exact hc.2 (List.mem_map_of_mem HotCoin.symbol
      (List.mem_filter.mpr ⟨hc.1, by simpa using not_le.mp hgt⟩))
  refine ⟨h1, ?_⟩
  intro cfg st T c httl hnd hc hT
  constructor
  · unfold cleanupExpiredCoins
    rw [mem_foldl_removeFromHotList]
    refine ⟨hc, ?_⟩
    intro hmem
    rcases List.mem_map.mp hmem with ⟨e, he, heq⟩
    have hest : e ∈ st := List.mem_of_mem_filter he
    have : e = c := List.inj_on_of_nodup_map hnd hest hc heq
    subst this
    have := (List.mem_filter.mp he).2
    rw [httl, hT] at this
    simp only [decide_eq_true_eq] at this
    omega
  · intro hmem
    have := h1 cfg st (T + 1801) c hmem
    rw [httl, hT] at this
    omega

/-- C7, witness: the sweep facts at the concrete entry admitted at time
100 with TTL 1800. -/
theorem C7_ttl_sweep_witness :
    sweepEntry ∈ cleanupExpiredCoins sweepConfig sweepHotList 1899 ∧
    sweepEntry ∉ cleanupExpiredCoins sweepConfig sweepHotList 1901 := by
  have h := C7_ttl_sweep.2 sweepConfig sweepHotList 100 sweepEntry rfl
    (by simp [sweepHotList]) (by simp [sweepHotList, sweepEntry]) rfl
  simpa using h

/-- A historical-reinstatement step either keeps the list or appends the
target entry for its symbol. -/
theorem histStep_cases (cfg : Config) (now : Int) (s : HotList) (a : String) :
    histStep cfg now s a = s ∨
      histStep cfg now s a =
        s ++ [{ symbol := a, addedAt := now, reason := Reason.historical_pattern,
                volumeData := historicalVolumeData a now }] := by
  unfold histStep
  by_cases hcond : hotHas s a = false ∧ s.length < cfg.hotListSize
  · rw [if_pos hcond]
    right
    unfold addToHotList
    rw [hcond.1]
    simp only [Bool.false_eq_true, if_false]
    rw [if_neg (not_le.mpr hcond.2)]
  · rw [if_neg hcond]
    left
    rfl

/-- Entries survive the whole historical-reinstatement pass. -/
theorem histFold_mono (cfg : Config) (now : Int) (L : List String) :
    ∀ (s : HotList) (c : HotCoin), c ∈ s → c ∈ L.foldl (histStep cfg now) s := by
  induction L with
  | nil => intro s c hc; simpa using hc
  | cons a as ih =>
    intro s c hc
    rw [List.foldl_cons]
    apply ih
    rcases histStep_cases cfg now s a with h | h
    · rw [h]; exact hc
    · rw [h]; exact List.mem_append_left _ hc

/-- Presence check across an append of one entry. -/
theorem hotHas_append (s : HotList) (c : HotCoin) (sym : String) :
    hotHas (s ++ [c]) sym = (hotHas s sym || (c.symbol == sym)) := by
  simp [hotHas]

/-- Every listed symbol not yet hot is admitted by the
historical-reinstatement pass when capacity suffices throughout. -/
theorem histFold_adds (cfg : Config) (now : Int) (L : List String) :
    ∀ (s : HotList), L.Nodup → s.length + L.length ≤ cfg.hotListSize →
      ∀ sym ∈ L, hotHas s sym = false →
      ({ symbol := sym, addedAt := now, reason := Reason.historical_pattern,
         volumeData := historicalVolumeData sym now } : HotCoin) ∈ L.foldl (histStep cfg now) s := by
  induction L with
  | nil => intro s _ _ sym hsym; exact absurd hsym (List.not_mem_nil sym)
  | cons a as ih =>
    intro s hnd hlen sym hsym hhas
    rw [List.foldl_cons]
    rw [List.nodup_cons] at hnd
    rcases List.mem_cons.mp hsym with rfl | hsym2
    · have hlt : s.length < cfg.hotListSize := by
        simp only [List.length_cons] at hlen
        omega
      have hstep : histStep cfg now s sym =
          s ++ [{ symbol := sym, addedAt := now, reason := Reason.historical_pattern,
                  volumeData := historicalVolumeData sym now }] := by
        unfold histStep
        rw [if_pos ⟨hhas, hlt⟩]
        unfold addToHotList
        rw [hhas]
        simp only [Bool.false_eq_true, if_false]
        rw [if_neg (not_le.mpr hlt)]
      rw [hstep]
      exact histFold_mono cfg now as _ _ (List.mem_append_right s (List.mem_singleton.mpr rfl))
    · have hne : sym ≠ a := fun h => hnd.1 (h ▸ hsym2)
      rcases histStep_cases cfg now s a with h | h
      · rw [h]
        apply ih s hnd.2 ?_ sym hsym2 hhas
        simp only [List.length_cons] at hlen
        omega
      · rw [h]
        apply ih _ hnd.2 ?_ sym hsym2 ?_
        · rw [List.length_append]
          simp only [List.length_cons, List.length_nil] at hlen ⊢
          omega
        · rw [hotHas_append, hhas]
          simpa using Ne.symm hne

/-- A symbol hot after the historical-reinstatement pass was hot before
or occurs in the processed symbol list. -/
theorem histFold_hotHas (cfg : Config) (now : Int) (L : List String) :
    ∀ (s : HotList) (sym : String),
      hotHas (L.foldl (histStep cfg now) s) sym = true → hotHas s sym = true ∨ sym ∈ L := by
  induction L with
  | nil => intro s sym h; exact Or.inl (by simpa using h)
  | cons a as ih =>
    intro s sym h
    rw [List.foldl_cons] at h
    rcases ih _ sym h with h2 | h2
    · rcases histStep_cases cfg now s a with he | he
      · rw [he] at h2
        exact Or.inl h2
      · rw [he, hotHas_append, Bool.or_eq_true] at h2
        rcases h2 with h3 | h3
        · exact Or.inl h3
        · have : a = sym := by simpa using h3
          exact Or.inr (this ▸ List.mem_cons_self a as)
    · exact Or.inr (List.mem_cons_of_mem a h2)

/-- C9: the historical-reinstatement pass admits, with reason
historical_pattern, every symbol with at least three recorded
occurrences last seen strictly within the trailing seven days, provided
it is not already hot and the list stays below capacity throughout; a
symbol last seen seven or more days ago is not reinstated; and no stored
entry is evicted by the pass. -/
theorem C9_historical_reinstatement :
    (∀ (cfg : Config) (st : HotList) (hist : List HistoricalArbitrage) (now : Int) (c : HotCoin),
      c ∈ st → c ∈ addHistoricalCoins cfg st hist now) ∧
    (∀ (cfg : Config) (st : HotList) (hist : List HistoricalArbitrage) (now : Int)
        (d : HistoricalArbitrage),
      (hist.map HistoricalArbitrage.symbol).Nodup → d ∈ hist →
      3 ≤ d.occurrences → now - 7 * 24 * 60 * 60 * 1000 < d.lastSeen →
      hotHas st d.symbol = false →
      st.length + (getHistoricallyProfitable hist now 3).length ≤ cfg.hotListSize →
      ({ symbol := d.symbol, addedAt := now, reason := Reason.historical_pattern,
         volumeData := historicalVolumeData d.symbol now } : HotCoin) ∈
        addHistoricalCoins cfg st hist now) ∧
    (∀ (cfg : Config) (st : HotList) (hist : List HistoricalArbitrage) (now : Int)
        (d : HistoricalArbitrage),
      (hist.map HistoricalArbitrage.symbol).Nodup → d ∈ hist →
      d.lastSeen ≤ now - 7 * 24 * 60 * 60 * 1000 → hotHas st d.symbol = false →
      hotHas (addHistoricalCoins cfg st hist now) d.symbol = false) := by
  refine ⟨?_, ?_, ?_⟩
  · intro cfg st hist now c hc
    exact histFold_mono cfg now (getHistoricallyProfitable hist now 3) st c hc
  · intro cfg st hist now d hnd hd hocc hweek hhas hlen
    have hdmem : d.symbol ∈ getHistoricallyProfitable hist now 3 := by
      unfold getHistoricallyProfitable
      exact List.mem_map_of_mem _ (List.mem_filter.mpr ⟨hd, by
        simp only [decide_eq_true_eq]
        exact ⟨hocc, hweek⟩⟩)
    have hndprof : (getHistoricallyProfitable hist now 3).Nodup := by
      unfold getHistoricallyProfitable
      exact List.Nodup.sublist ((List.filter_sublist hist).map _) hnd
    exact histFold_adds cfg now (getHistoricallyProfitable hist now 3) st hndprof hlen
      d.symbol hdmem hhas
  · intro cfg st hist now d hnd hd hweek hhas
    cases hres : hotHas (addHistoricalCoins cfg st hist now) d.symbol
    · rfl
    · exfalso
      rcases histFold_hotHas cfg now (getHistoricallyProfitable hist now 3) st d.symbol hres
        with h | h
      · rw [hhas] at h
        exact Bool.false_ne_true h
      · unfold getHistoricallyProfitable at h
        rcases List.mem_map.mp h with ⟨d', hd', heq⟩
        have hd'mem : d' ∈ hist := List.mem_of_mem_filter hd'
        have : d' = d := List.inj_on_of_nodup_map hnd hd'mem hd heq
        subst this
        have := (List.mem_filter.mp hd').2
        simp only [decide_eq_true_eq] at this
        omega

/-- C9, witness: under the sample history at ten days, the unrelated
entry Z survives, H1 (seen three times, two days ago) is admitted with
reason historical_pattern, and H2 (seen eight days ago) stays out. -/
theorem C9_historical_reinstatement_witness :
    ({ symbol := "Z", addedAt := 1, reason := Reason.volume_spike,
       volumeData := historicalVolumeData "Z" 1 } : HotCoin) ∈
      addHistoricalCoins defaultConfig preHistHotList sampleHist histNow ∧
    histTarget ∈ addHistoricalCoins defaultConfig preHistHotList sampleHist histNow ∧
    hotHas (addHistoricalCoins defaultConfig preHistHotList sampleHist histNow) "H2" = false := by
  refine ⟨?_, ?_, ?_⟩
  · exact C9_historical_reinstatement.1 defaultConfig preHistHotList sampleHist histNow _
      (by simp [preHistHotList])
  · exact C9_historical_reinstatement.2.1 defaultConfig preHistHotList sampleHist histNow
      { symbol := "H1", occurrences := 3, lastSeen := 691200000, averageProfit := 5 }
      (by simp [sampleHist]) (by simp [sampleHist]) (by norm_num) (by norm_num [histNow])
      (by decide) (by decide)
  · exact C9_historical_reinstatement.2.2 defaultConfig preHistHotList sampleHist histNow
      { symbol := "H2", occurrences := 3, lastSeen := 172800000, averageProfit := 5 }
      (by simp [sampleHist]) (by simp [sampleHist]) (by norm_num [histNow]) (by decide)

/-- Unfolding of getVolumeDataForSymbol on a non-zero sample. -/
theorem getVolumeData_eq (sym : String) (history : List ℚ) (v : ℚ) (now : Int)
    (hne : ¬(v = 0)) :
    getVolumeDataForSymbol sym history v now =
      some (mkVolumeSample sym v (windowUpdate history v) now, windowUpdate history v) := by
  unfold getVolumeDataForSymbol windowUpdate mkVolumeSample
  rw [if_neg hne]

/-- The updated window keeps all samples positive, holds the new sample,
stays within the window bound, and is the singleton window on the first
sample. -/
theorem windowUpdate_spec (history : List ℚ) (v : ℚ)
    (hh : ∀ x ∈ history, 0 < x) (hv : 0 < v) (hlen : history.length ≤ HISTORY_WINDOW) :
    (∀ x ∈ windowUpdate history v, 0 < x) ∧ v ∈ windowUpdate history v ∧
      (windowUpdate history v).length ≤ HISTORY_WINDOW ∧
      (history = [] → windowUpdate history v = [v]) := by
  unfold windowUpdate
  by_cases hw : HISTORY_WINDOW < (history ++ [v]).length
  · rw [if_pos hw]
    rcases history with _ | ⟨hd, tl⟩
    · simp [HISTORY_WINDOW] at hw
    · refine ⟨?_, ?_, ?_, ?_⟩
      · intro x hx
        simp only [List.cons_append, List.tail_cons] at hx
        rcases List.mem_append.mp hx with h | h
        · exact hh x (List.mem_cons_of_mem hd h)
        · rw [List.mem_singleton.mp h]; exact hv
      · simp
      · simp only [List.cons_append, List.tail_cons, List.length_append,
          List.length_cons, List.length_nil] at hw hlen ⊢
        omega
      · intro h
        exact absurd h (List.cons_ne_nil hd tl)
  · rw [if_neg hw]
    refine ⟨?_, ?_, not_lt.mp hw, ?_⟩
    · intro x hx
      rcases List.mem_append.mp hx with h | h
      · exact hh x h
      · rw [List.mem_singleton.mp h]; exact hv
    · simp
    · intro h
      rw [h, List.nil_append]

/-- Spike-ratio bounds of a sample built from a positive window that
contains it. -/
theorem mkVolumeSample_bounds (sym : String) (v : ℚ) (h2 : List ℚ) (now : Int)
    (hv : 0 < v) (hall : ∀ x ∈ h2, 0 < x) (hvmem : v ∈ h2)
    (hlen12 : h2.length ≤ HISTORY_WINDOW) :
    0 < (mkVolumeSample sym v h2 now).volumeSpike ∧
      (mkVolumeSample sym v h2 now).volumeSpike ≤ 12 := by
  have hlp : 0 < h2.length := List.length_pos_of_mem hvmem
  have hsum : 0 < h2.sum := List.sum_pos h2 hall (List.ne_nil_of_length_pos hlp)
  have hlq : (0:ℚ) < (h2.length : ℚ) := by exact_mod_cast hlp
  have havg : 0 < h2.sum / (h2.length : ℚ) := div_pos hsum hlq
  unfold mkVolumeSample
  simp only [if_pos hlp, if_pos havg]
  constructor
  · exact div_pos hv havg
  · rw [div_le_iff₀ havg]
    have hvs : v ≤ h2.sum := List.single_le_sum (fun x hx => le_of_lt (hall x hx)) v hvmem
    have hl12 : (h2.length : ℚ) ≤ 12 := by
      have := hlen12
      simp only [HISTORY_WINDOW] at this
      exact_mod_cast this
    have hb1 : v * (h2.length : ℚ) ≤ h2.sum * (h2.length : ℚ) :=
      mul_le_mul_of_nonneg_right hvs (le_of_lt hlq)
    have hb2 : h2.sum * (h2.length : ℚ) ≤ h2.sum * 12 :=
      mul_le_mul_of_nonneg_left hl12 (le_of_lt hsum)
    have hexp : 12 * (h2.sum / (h2.length : ℚ)) = 12 * h2.sum / (h2.length : ℚ) :=
      (mul_div_assoc 12 h2.sum _).symm
    rw [hexp, le_div_iff₀ hlq]
    linarith

/-- The first sample ever recorded has spike ratio exactly one. -/
theorem mkVolumeSample_first (sym : String) (v : ℚ) (now : Int) (hv : 0 < v) :
    (mkVolumeSample sym v [v] now).volumeSpike = 1 := by
  unfold mkVolumeSample
  simp [hv, div_self (ne_of_gt hv)]

/-- Invariant of the per-symbol scan fold: every produced sample has its
spike ratio in the interval (0, 12]. -/
theorem scanFold_spec (sym : String) (now : Int) (volumes : List ℚ) :
    ∀ (acc : List VolumeData × List ℚ), (∀ x ∈ volumes, 0 ≤ x) →
      (∀ x ∈ acc.2, 0 < x) → acc.2.length ≤ HISTORY_WINDOW →
      (∀ d ∈ acc.1, 0 < d.volumeSpike ∧ d.volumeSpike ≤ 12) →
      (∀ d ∈ (volumes.foldl (scanStep sym now) acc).1,
        0 < d.volumeSpike ∧ d.volumeSpike ≤ 12) := by
  induction volumes with
  | nil => intro acc _ _ _ hacc; simpa using hacc
  | cons v vs ih =>
    intro acc hvol hpos hlen hacc
    rw [List.foldl_cons]
    by_cases hv : v = 0
    · have hstep : scanStep sym now acc v = acc := by
        unfold scanStep getVolumeDataForSymbol
        rw [if_pos hv]
      rw [hstep]
      exact ih acc (fun x hx => hvol x (List.mem_cons_of_mem v hx)) hpos hlen hacc
    · have hv2 : 0 < v := lt_of_le_of_ne (hvol v (List.mem_cons_self v vs)) (Ne.symm hv)
      obtain ⟨hall, hvmem, hlen2, -⟩ := windowUpdate_spec acc.2 v hpos hv2 hlen
      have hstep : scanStep sym now acc v =
          (acc.1 ++ [mkVolumeSample sym v (windowUpdate acc.2 v) now], windowUpdate acc.2 v) := by
        unfold scanStep
        rw [getVolumeData_eq sym acc.2 v now hv]
      rw [hstep]
      apply ih _ (fun x hx => hvol x (List.mem_cons_of_mem v hx)) hall hlen2
      intro d hd
      rcases List.mem_append.mp hd with h | h
      · exact hacc d h
      · rw [List.mem_singleton.mp h]
        exact mkVolumeSample_bounds sym v (windowUpdate acc.2 v) now hv2 hall hvmem hlen2

/-- The scan fold only ever appends to the produced-sample list. -/
theorem scanFold_append (sym : String) (now : Int) (volumes : List ℚ) :
    ∀ (a b : List VolumeData) (hist : List ℚ),
      (volumes.foldl (scanStep sym now) (a ++ b, hist)).1 =
        a ++ (volumes.foldl (scanStep sym now) (b, hist)).1 := by
  induction volumes with
  | nil => intro a b hist; simp
  | cons v vs ih =>
    intro a b hist
    rw [List.foldl_cons, List.foldl_cons]
    unfold scanStep
    rcases h : getVolumeDataForSymbol sym hist v now with _ | ⟨d, h2⟩
    · simp only [h]
      exact ih a b hist
    · simp only [h]
      rw [show (a ++ b) ++ [d] = a ++ (b ++ [d]) from List.append_assoc a b [d]]
      exact ih a (b ++ [d]) h2

/-- The first produced sample of a per-symbol scan has spike ratio one. -/
theorem scanSeq_head_spike (sym : String) (now : Int) :
    ∀ (volumes : List ℚ), (∀ x ∈ volumes, 0 ≤ x) →
      ∀ d, (scanSymbolVolumes sym now volumes).1.head? = some d → d.volumeSpike = 1 := by
  intro volumes
  induction volumes with
  | nil => intro _ d hd; simp [scanSymbolVolumes] at hd
  | cons v vs ih =>
    intro hvol d hd
    unfold scanSymbolVolumes at hd
    rw [List.foldl_cons] at hd
    by_cases hv : v = 0
    · have hstep : scanStep sym now ([], []) v = ([], []) := by
        unfold scanStep getVolumeDataForSymbol
        rw [if_pos hv]
      rw [hstep] at hd
      exact ih (fun x hx => hvol x (List.mem_cons_of_mem v hx)) d hd
    · have hv2 : 0 < v := lt_of_le_of_ne (hvol v (List.mem_cons_self v vs)) (Ne.symm hv)
      have hstep : scanStep sym now ([], []) v =
          ([mkVolumeSample sym v [v] now] ++ [], [v]) := by
        unfold scanStep
        rw [getVolumeData_eq sym [] v now hv]
        rfl
      rw [hstep, scanFold_append sym now vs [mkVolumeSample sym v [v] now] [] [v],
        List.singleton_append, List.head?_cons] at hd
      obtain rfl : mkVolumeSample sym v [v] now = d := by injection hd
      exact mkVolumeSample_first sym v now hv2

/-- C10: every sample the scanner produces has its spike ratio in the
interval (0, 12]; the first sample ever produced for a symbol has spike
ratio exactly one; and a configured spike threshold above 12 never
classifies any produced sample as a spike. -/
theorem C10_spike_ratio_bounds :
    (∀ (sym : String) (now : Int) (volumes : List ℚ), (∀ x ∈ volumes, 0 ≤ x) →
      ∀ d ∈ (scanSymbolVolumes sym now volumes).1, 0 < d.volumeSpike ∧ d.volumeSpike ≤ 12) ∧
    (∀ (sym : String) (now : Int) (volumes : List ℚ), (∀ x ∈ volumes, 0 ≤ x) →
      ∀ d, (scanSymbolVolumes sym now volumes).1.head? = some d → d.volumeSpike = 1) ∧
    (∀ (cfg : Config) (sym : String) (now : Int) (volumes : List ℚ),
      (∀ x ∈ volumes, 0 ≤ x) → 12 < cfg.volumeSpikeThreshold →
      identifyVolumeSpikes cfg (scanSymbolVolumes sym now volumes).1 = []) := by
  have hmain : ∀ (sym : String) (now : Int) (volumes : List ℚ), (∀ x ∈ volumes, 0 ≤ x) →
      ∀ d ∈ (scanSymbolVolumes sym now volumes).1, 0 < d.volumeSpike ∧ d.volumeSpike ≤ 12 := by
    intro sym now volumes hvol d hd
    exact scanFold_spec sym now volumes ([], []) hvol (by simp) (by simp) (by simp) d hd
  refine ⟨hmain, scanSeq_head_spike, ?_⟩
  intro cfg sym now volumes hvol hthr
  unfold identifyVolumeSpikes
  rw [List.filter_eq_nil_iff]
  intro d hd
  simp only [decide_eq_true_eq, not_and]
  intro hsp
  have := (hmain sym now volumes hvol d hd).2
  linarith

/-- C10, witness: the sample sequence 4, 8 yields spike ratios 1 and
8/6, both in (0, 12]; and at threshold 13 the classifier accepts none. -/
theorem C10_spike_ratio_bounds_witness :
    (0 < (mkVolumeSample "X" 8 [4, 8] 0).volumeSpike ∧
      (mkVolumeSample "X" 8 [4, 8] 0).volumeSpike ≤ 12) ∧
    (mkVolumeSample "X" 4 [4] 0).volumeSpike = 1 ∧
    identifyVolumeSpikes steepConfig (scanSymbolVolumes "X" 0 [4, 8]).1 = [] := by
  refine ⟨?_, ?_, ?_⟩
  · exact C10_spike_ratio_bounds.1 "X" 0 [4, 8] (by norm_num)
      (mkVolumeSample "X" 8 [4, 8] 0)
      (by norm_num [scanSymbolVolumes, scanStep, getVolumeDataForSymbol, windowUpdate,
        mkVolumeSample, HISTORY_WINDOW])
  · exact C10_spike_ratio_bounds.2.1 "X" 0 [4] (by norm_num)
      (mkVolumeSample "X" 4 [4] 0)
      (by norm_num [scanSymbolVolumes, scanStep, getVolumeDataForSymbol, windowUpdate,
        mkVolumeSample, HISTORY_WINDOW])
  · exact C10_spike_ratio_bounds.2.2 steepConfig "X" 0 [4, 8] (by norm_num)
      (by norm_num [steepConfig, defaultConfig])

/-- A positive net profit is forced by the guard of calculateArbitrage
whenever it returns an opportunity. -/
theorem calculateArbitrage_netProfit (env : MarketEnv) (symbol buyExchange sellExchange : String)
    (buyPrice sellPrice : ℚ) (now : Int) (opp : ArbitrageOpportunity)
    (h : calculateArbitrage env symbol buyExchange sellExchange buyPrice sellPrice now = some opp) :
    0 < opp.netProfit := by
  simp only [calculateArbitrage] at h
  split at h
  · exact absurd h (by simp)
  · split at h
    · exact absurd h (by simp)
    · rename_i hnp
      injection h with h2
      rw [← h2]
      exact not_le.mp hnp

/-- Elements of a fold whose step only appends elements satisfying P. -/
theorem foldl_mem_or {α β : Type} (P : β → Prop) (f : List β → α → List β)
    (hf : ∀ (acc : List β) (x : α) (o : β), o ∈ f acc x → o ∈ acc ∨ P o) :
    ∀ (l : List α) (acc : List β) (o : β), o ∈ l.foldl f acc → o ∈ acc ∨ P o := by
  intro l
  induction l with
  | nil => intro acc o ho; exact Or.inl (by simpa using ho)
  | cons x xs ih =>
    intro acc o ho
    rw [List.foldl_cons] at ho
    rcases ih (f acc x) o ho with h | h
    · exact hf acc x o h
    · exact Or.inr h

/-- One pairwise step only appends opportunities with positive net
profit clearing the threshold. -/
theorem pairStep_mem (cfg : Config) (env : MarketEnv) (symbol : String) (now : Int) :
    ∀ (acc : List ArbitrageOpportunity) (pq : PriceQuote × PriceQuote)
      (o : ArbitrageOpportunity), o ∈ pairStep cfg env symbol now acc pq →
      o ∈ acc ∨ (0 < o.netProfit ∧ cfg.arbitrageThreshold ≤ o.netProfitPercentage) := by
  intro acc pq o ho
  unfold pairStep at ho
  rcases h : pairCandidate env symbol now pq with _ | opp
  · simp only [h] at ho
    exact Or.inl ho
  · simp only [h] at ho
    by_cases hth : cfg.arbitrageThreshold ≤ opp.netProfitPercentage
    · rw [if_pos hth] at ho
      rcases List.mem_append.mp ho with h2 | h2
      · exact Or.inl h2
      · obtain rfl := List.mem_singleton.mp h2
        unfold pairCandidate at h
        exact Or.inr ⟨calculateArbitrage_netProfit env symbol _ _ _ _ now o h, hth⟩
    · rw [if_neg hth] at ho
      exact Or.inl ho

/-- One triangular path step only appends opportunities with positive
net profit clearing the threshold. -/
theorem triPathStep_mem (cfg : Config) (exchangeId : String) (now : Int) :
    ∀ (acc : List ArbitrageOpportunity) (path : TriangularPath)
      (o : ArbitrageOpportunity), o ∈ triPathStep cfg exchangeId now acc path →
      o ∈ acc ∨ (0 < o.netProfit ∧ cfg.arbitrageThreshold ≤ o.netProfitPercentage) := by
  intro acc path o ho
  unfold triPathStep at ho
  by_cases hc : 0 < path.netProfit ∧
      cfg.arbitrageThreshold ≤ path.netProfit / TRADE_AMOUNT_USD * 100
  · rw [if_pos hc] at ho
    rcases List.mem_append.mp ho with h | h
    · exact Or.inl h
    · obtain rfl := List.mem_singleton.mp h
      refine Or.inr ⟨?_, ?_⟩
      · simpa [convertPathToOpportunity] using hc.1
      · simpa [convertPathToOpportunity] using hc.2
  · rw [if_neg hc] at ho
    exact Or.inl ho

/-- One triangular symbol step only appends opportunities with positive
net profit clearing the threshold. -/
theorem triSymbolStep_mem (cfg : Config) (env : MarketEnv) (exchangeId : String) (now : Int) :
    ∀ (acc : List ArbitrageOpportunity) (symbol : String)
      (o : ArbitrageOpportunity), o ∈ triSymbolStep cfg env exchangeId now acc symbol →
      o ∈ acc ∨ (0 < o.netProfit ∧ cfg.arbitrageThreshold ≤ o.netProfitPercentage) := by
  intro acc symbol o ho
  unfold triSymbolStep at ho
  exact foldl_mem_or _ (triPathStep cfg exchangeId now) (triPathStep_mem cfg exchangeId now)
    (findPaths env exchangeId symbol) acc o ho

/-- C3: every opportunity either engine reports has positive net profit
and a net profit percentage at least the configured threshold. -/
theorem C3_threshold_gate :
    (∀ (cfg : Config) (env : MarketEnv) (symbol : String) (prices : List PriceQuote)
        (now : Int) (o : ArbitrageOpportunity),
      o ∈ findArbitrageForSymbol cfg env symbol prices now →
      0 < o.netProfit ∧ cfg.arbitrageThreshold ≤ o.netProfitPercentage) ∧
    (∀ (cfg : Config) (env : MarketEnv) (exchangeId : String) (symbols : List String)
        (now : Int) (o : ArbitrageOpportunity),
      o ∈ findTriangularArbitrage cfg env exchangeId symbols now →
      0 < o.netProfit ∧ cfg.arbitrageThreshold ≤ o.netProfitPercentage) := by
  constructor
  · intro cfg env symbol prices now o ho
    unfold findArbitrageForSymbol at ho
    by_cases hlen : prices.length < 2
    · rw [if_pos hlen] at ho
      exact absurd ho (List.not_mem_nil o)
    · rw [if_neg hlen] at ho
      rcases foldl_mem_or _ (pairStep cfg env symbol now) (pairStep_mem cfg env symbol now)
        (pricePairs prices) [] o ho with h | h
      · exact absurd h (List.not_mem_nil o)
      · exact h
  · intro cfg env exchangeId symbols now o ho
    unfold findTriangularArbitrage at ho
    rcases foldl_mem_or _ (triSymbolStep cfg env exchangeId now)
      (triSymbolStep_mem cfg env exchangeId now) (symbols.take 10) [] o ho with h | h
    · exact absurd h (List.not_mem_nil o)
    · exact h

/-- C3, witness: the concrete pairwise opportunity of sampleQuotes under
flatFeeEnv and the concrete triangular opportunity of cyclicEnv both
satisfy the reporting gate. -/
theorem C3_threshold_gate_witness :
    (0 < pairOpp.netProfit ∧ defaultConfig.arbitrageThreshold ≤ pairOpp.netProfitPercentage) ∧
    (0 < triOpp.netProfit ∧ defaultConfig.arbitrageThreshold ≤ triOpp.netProfitPercentage) := by
  have hb : pairBase "X" = "X" := by decide
  have hb1 : pairBase "X/USDT" = "X" := by decide
  have hq1 : pairQuote "X/USDT" = "USDT" := by decide
  have hb2 : pairBase "X/BTC" = "X" := by decide
  have hq2 : pairQuote "X/BTC" = "BTC" := by decide
  have hb3 : pairBase "BTC/USDT" = "BTC" := by decide
  have hq3 : pairQuote "BTC/USDT" = "USDT" := by decide
  constructor
  · refine C3_threshold_gate.1 defaultConfig flatFeeEnv "X" sampleQuotes 0 pairOpp ?_
    simp [findArbitrageForSymbol, pricePairs, pairStep, pairCandidate,
      calculateArbitrage, shouldSkipArbitrage, isSuspended, flatFeeEnv, calculateFees,
      TRADE_AMOUNT_USD, sampleQuotes, defaultConfig, pairOpp, hb]
    norm_num
  · refine C3_threshold_gate.2 defaultConfig cyclicEnv "binance" ["X"] 0 triOpp ?_
    simp [findTriangularArbitrage, triSymbolStep, triPathStep, findPaths,
      cyclicEnv, calculateTriangularPath, TRADE_AMOUNT_USD, defaultConfig, triOpp,
      convertPathToOpportunity, formatPath, hb1, hq1, hb2, hq2, hb3, hq3]
    norm_num

/-- C4: with buy price 100 and sell price 105 on trade amount 100, both
trading-fee rates 0.001 and zero withdrawal and gas fees, the computed
opportunity has gross profit 5, total fees 0.2, net profit 4.8 and net
profit percentage 4.8; the engine emits the pair exactly when the
configured threshold is at most 4.8 (and suppresses it above 4.8). -/
theorem C4_pairwise_arithmetic :
    ((calculateArbitrage flatFeeEnv "X" "E1" "E2" 100 105 0).map
        (fun o => (o.estimatedProfit, o.fees.totalFees, o.netProfit, o.netProfitPercentage)) =
      some (5, 1/5, 24/5, 24/5)) ∧
    (∀ t : ℚ,
      findArbitrageForSymbol { defaultConfig with arbitrageThreshold := t }
          flatFeeEnv "X" sampleQuotes 0 ≠ [] ↔ t ≤ 24/5) := by
  have hb : pairBase "X" = "X" := by decide
  have hcalc : calculateArbitrage flatFeeEnv "X" "E1" "E2" 100 105 0 = some pairOpp := by
    simp [calculateArbitrage, shouldSkipArbitrage, isSuspended, flatFeeEnv, calculateFees,
      TRADE_AMOUNT_USD, pairOpp, hb]
    norm_num
  have hcand : pairCandidate flatFeeEnv "X" 0
      ({ exchange := "E1", price := 100 }, { exchange := "E2", price := 105 }) = some pairOpp := by
    unfold pairCandidate
    simp only [show ((100:ℚ) < 105) = True from by norm_num, if_true]
    exact hcalc
  constructor
  · rw [hcalc]
    simp [pairOpp]
  · intro t
    have hlist : findArbitrageForSymbol { defaultConfig with arbitrageThreshold := t }
        flatFeeEnv "X" sampleQuotes 0 = if t ≤ 24/5 then [pairOpp] else [] := by
      simp [findArbitrageForSymbol, sampleQuotes, pricePairs, pairStep, hcand, pairOpp]
    rw [hlist]
    by_cases h : t ≤ 24/5
    · rw [if_pos h]
      simp [h]
    · rw [if_neg h]
      simp [h]

/-- C5: when transfer of the asset is suspended at the buy exchange or
at the sell exchange, the pairwise engine computes no opportunity,
whatever the prices. -/
theorem C5_suspension_veto (env : MarketEnv) (symbol buyExchange sellExchange : String)
    (buyPrice sellPrice : ℚ) (now : Int)
    (h : shouldSkipArbitrage env buyExchange sellExchange symbol = true) :
    calculateArbitrage env symbol buyExchange sellExchange buyPrice sellPrice now = none := by
  unfold calculateArbitrage
  rw [if_pos h]

/-- C5, witness: with X suspended on E1, the otherwise profitable
100-to-105 pair is vetoed. -/
theorem C5_suspension_veto_witness :
    calculateArbitrage suspendedEnv "X" "E1" "E2" 100 105 0 = none :=
  C5_suspension_veto suspendedEnv "X" "E1" "E2" 100 105 0 (by decide)

/-- C8: the volume-spike classifier selects exactly the samples whose
spike ratio reaches the configured threshold and whose current volume
reaches the configured minimum; the sample with rolling average 100000
and current volume 350000 is classified at threshold 3 and minimum
volume 200000. -/
theorem C8_spike_classifier :
    (∀ (cfg : Config) (l : List VolumeData) (d : VolumeData),
      d ∈ identifyVolumeSpikes cfg l ↔
        d ∈ l ∧ cfg.volumeSpikeThreshold ≤ d.volumeSpike ∧
          cfg.minAbsoluteVolume ≤ d.currentVolume) ∧
    spikeSample ∈ identifyVolumeSpikes spikeConfig [spikeSample] := by
  constructor
  · intro cfg l d
    unfold identifyVolumeSpikes
    rw [List.mem_filter]
    simp
  · refine List.mem_filter.mpr ⟨List.mem_singleton.mpr rfl, ?_⟩
    simp only [spikeConfig, defaultConfig, spikeSample, decide_eq_true_eq]
    norm_num

/-- C1: at venue fee rate 1/10 and leg prices ask 2, bid 3, bid 5, the
engine's path computation charges the leg-1 fee on the funding amount
and feeds the unreduced conversion A/ask into leg 2, reporting net
profit 507.5, while the claim's fee-adjusted carry-forward yields
446.75; the two disagree. -/
theorem C1_fee_carry_divergence :
    (calculateTriangularPath cyclicEnv "binance" "X/USDT" "X/BTC" "BTC/USDT" 2 3 5).netProfit =
      1015/2 ∧
    claimTriangularNetProfit (1/10) 2 3 5 = 1787/4 ∧
    ((1015:ℚ)/2 ≠ 1787/4) := by
  refine ⟨?_, ?_, by norm_num⟩
  · norm_num [calculateTriangularPath, cyclicEnv, TRADE_AMOUNT_USD]
  · norm_num [claimTriangularNetProfit, TRADE_AMOUNT_USD]

end ArbBot
